import Mathlib

/-!
Verification development for the F&I description-enhancer core:
a shallow embedding of `src/services/sanitizer.js` (HTML sanitizer) and of
the compliance service (`checkCompliance`, `hasDisclaimer`, `ensureDisclaimer`).

Strings are modelled as `List Char`.  JavaScript regular-expression passes are
embedded as deterministic scanners that reproduce the exact matching semantics
of the concrete regexes appearing in the source (leftmost match, greedy /
lazy quantifier behaviour as it resolves for those particular patterns, the
case-insensitivity flags, and the single left-to-right
non-overlapping scan of JS `String.replace`).  Scanners that consume a computed number of characters
per step are written with an explicit fuel argument (initialised to the string
length, which every call strictly decreases by at least as much as the fuel),
so that all definitions reduce in the kernel.
-/

/-- Strings of the JavaScript program, modelled as lists of characters. -/
abbrev Str := List Char

/-- ASCII lower-casing of a character (JS `toLowerCase` on the inputs used). -/
def asciiLower (c : Char) : Char :=
  if 'A' ≤ c && c ≤ 'Z' then Char.ofNat (c.toNat + 32) else c

/-- Lower-case a string character-wise. -/
def lowerStr (s : Str) : Str := s.map asciiLower

/-- JS regex `\w`: ASCII letters, digits and underscore. -/
def isWordChar (c : Char) : Bool :=
  ('a' ≤ c && c ≤ 'z') || ('A' ≤ c && c ≤ 'Z') || ('0' ≤ c && c ≤ '9') || c = '_'

/-- JS regex `\s`, restricted to its ASCII members (space, tab, LF, VT, FF, CR). -/
def isSpaceChar (c : Char) : Bool :=
  c = ' ' || c = '\t' || c = '\n' || c = '\r' || c = Char.ofNat 11 || c = Char.ofNat 12

/-- The double-quote character. -/
def dquote : Char := Char.ofNat 34

/-- The single-quote (apostrophe) character. -/
def squote : Char := Char.ofNat 39

/-- JS `String.prototype.trim` (over the ASCII whitespace of our model). -/
def trimStr (s : Str) : Str :=
  ((s.dropWhile isSpaceChar).reverse.dropWhile isSpaceChar).reverse

/-- Exact prefix test: `startsWithStr p s` is true iff `p` is a prefix of `s`. -/
def startsWithStr : Str → Str → Bool
  | [], _ => true
  | _ :: _, [] => false
  | p :: ps, c :: cs => p = c && startsWithStr ps cs

/-- Case-insensitive prefix test; the pattern `p` is given already lower-cased. -/
def startsCI : Str → Str → Bool
  | [], _ => true
  | _ :: _, [] => false
  | p :: ps, c :: cs => p = asciiLower c && startsCI ps cs

/-- Substring test (JS `String.prototype.includes`). -/
def containsSub (p : Str) : Str → Bool
  | [] => startsWithStr p []
  | c :: cs => startsWithStr p (c :: cs) || containsSub p cs

/-- Number of positions of `s` at which `p` occurs as a substring. -/
def countOcc (p : Str) : Str → Nat
  | [] => if startsWithStr p [] then 1 else 0
  | c :: cs => (if startsWithStr p (c :: cs) then 1 else 0) + countOcc p cs

/-- Index of the first occurrence of character `t` (JS `indexOf`). -/
def firstIdx (t : Char) : Str → Option Nat
  | [] => none
  | c :: cs => if c = t then some 0 else (firstIdx t cs).map (· + 1)

/-- Length of the longest prefix whose characters satisfy `p`. -/
def takeCount (p : Char → Bool) : Str → Nat
  | [] => 0
  | c :: cs => if p c then takeCount p cs + 1 else 0

/-- JS `String.prototype.split` on a single character. -/
def splitOnChar (t : Char) : Str → List Str
  | [] => [[]]
  | c :: cs =>
    let r := splitOnChar t cs
    if c = t then [] :: r
    else match r with
      | [] => [[c]]
      | h :: tl => (c :: h) :: tl

/-- JS `Array.prototype.join` with separator `"; "`. -/
def joinWithSemi : List Str → Str
  | [] => []
  | [x] => x
  | x :: xs => x ++ ';' :: ' ' :: joinWithSemi xs

/-- Boolean membership of a string in a list of strings. -/
def inList (x : Str) : List Str → Bool
  | [] => false
  | y :: ys => y = x || inList x ys

/-! ## Sanitizer: `src/services/sanitizer.js` -/

/-- The whitelist `ALLOWED_TAGS` (sanitizer.js line 11). -/
def ALLOWED_TAGS : List Str :=
  ["p".data, "strong".data, "em".data, "ul".data, "li".data, "br".data, "span".data]

/-- The whitelist `ALLOWED_STYLE_PROPERTIES` (sanitizer.js line 14). -/
def ALLOWED_STYLE_PROPERTIES : List Str := ["font-size".data, "font-style".data]

/-- The body of the `for` loop of `sanitizeStyle` (sanitizer.js lines 44-63):
the declaration kept for one `;`-separated part, or `none` when the part is
dropped.  The property is trimmed and lower-cased; the value check is the
case-sensitive JS `String.includes` of the source on `"expression"`, `"javascript"`,
`"url("`. -/
def declOf (part : Str) : Option Str :=
  let t := trimStr part
  if t.isEmpty then none
  else
    match firstIdx ':' t with
    | none => none
    | some i =>
      let prop := lowerStr (trimStr (t.take i))
      let v := trimStr (t.drop (i + 1))
      if inList prop ALLOWED_STYLE_PROPERTIES &&
          !(containsSub "expression".data v) &&
          !(containsSub "javascript".data v) &&
          !(containsSub "url(".data v)
      then some (prop ++ ':' :: ' ' :: v)
      else none

/-- One iteration of the `sanitizedParts.push` loop of `sanitizeStyle`. -/
def styleFoldStep (acc : List Str) (part : Str) : List Str :=
  match declOf part with
  | some d => acc ++ [d]
  | none => acc

/-- Source function `sanitizeStyle` (sanitizer.js lines 38-66). -/
def sanitizeStyle (styleValue : Str) : Str :=
  if styleValue.isEmpty then []
  else joinWithSemi ((splitOnChar ';' styleValue).foldl styleFoldStep [])

/-- Modelled from the spec, amended reading of the style contract: a
`property: value` pair survives only if the trimmed lower-cased property is in
`ALLOWED_STYLE_PROPERTIES` and the value (compared case-sensitively) contains
none of `"expression"`, `"javascript"`, `"url("`; a surviving pair is emitted
as `property: value` and failing pairs are dropped entirely. -/
def styleDeclKeep (part : Str) : Option Str :=
  match firstIdx ':' (trimStr part) with
  | none => none
  | some i =>
    let t := trimStr part
    let prop := lowerStr (trimStr (t.take i))
    let v := trimStr (t.drop (i + 1))
    if (prop ∈ ALLOWED_STYLE_PROPERTIES) ∧
        ¬(containsSub "expression".data v = true) ∧
        ¬(containsSub "javascript".data v = true) ∧
        ¬(containsSub "url(".data v = true)
    then some (prop ++ ':' :: ' ' :: v)
    else none

/-- The spec-side formulation of `sanitizeStyle`: split on `;`, keep exactly
the surviving pairs, rejoin with `"; "`. -/
def sanitizeStyleSpec (styleValue : Str) : Str :=
  joinWithSemi ((splitOnChar ';' styleValue).filterMap styleDeclKeep)

/-- Match at the current position of the style-attribute regex
`/style\s*=\s*["']([^"']*)["']/i` (sanitizer.js line 76), returning the
captured value. -/
def styleValAt (s : Str) : Option Str :=
  if startsCI "style".data s then
    let r1 := s.drop 5
    let w1 := takeCount isSpaceChar r1
    match r1.drop w1 with
    | '=' :: r2 =>
      let w2 := takeCount isSpaceChar r2
      match r2.drop w2 with
      | q :: r3 =>
        if q = dquote || q = squote then
          let v := r3.takeWhile (fun c => !(c = dquote || c = squote))
          match r3.drop v.length with
          | q2 :: _ => if q2 = dquote || q2 = squote then some v else none
          | [] => none
        else none
      | [] => none
    | _ => none
  else none

/-- First match of the style-attribute regex anywhere in the string
(JS `String.match` without the global flag). -/
def findStyleVal : Str → Option Str
  | [] => none
  | c :: cs =>
    match styleValAt (c :: cs) with
    | some v => some v
    | none => findStyleVal cs

/-- Source function `sanitizeAttributes` (sanitizer.js lines 72-86). -/
def sanitizeAttributes (attributeString : Str) : Str :=
  if attributeString.isEmpty then []
  else
    match findStyleVal attributeString with
    | some v =>
      let ss := sanitizeStyle v
      if ss.isEmpty then []
      else ' ' :: ("style=".data ++ dquote :: (ss ++ [dquote]))
    | none => []

/-- Matcher for a case-insensitive literal (patterns such as `/javascript:/gi`);
the pattern is given lower-cased.  Returns the length of the match at the
current position. -/
def litCIm (pat : Str) (s : Str) : Option Nat :=
  if startsCI pat s then some pat.length else none

/-- Matcher for `/on\w+\s*=/gi` (with `allowWs = true`) and `/on\w+=/gi`
(with `allowWs = false`): `on`, at least one word character, optional
whitespace, `=`. -/
def onHandlerM (allowWs : Bool) (s : Str) : Option Nat :=
  match s with
  | c1 :: c2 :: rest =>
    if asciiLower c1 = 'o' && asciiLower c2 = 'n' then
      let w := takeCount isWordChar rest
      if w = 0 then none
      else
        let rest2 := rest.drop w
        let sp := if allowWs then takeCount isSpaceChar rest2 else 0
        match rest2.drop sp with
        | '=' :: _ => some (2 + w + sp + 1)
        | _ => none
    else none
  | _ => none

/-- Index of the first position where the lower-cased pattern occurs
(case-insensitively). -/
def findCI (pat : Str) : Str → Option Nat
  | [] => if startsCI pat [] then some 0 else none
  | c :: cs => if startsCI pat (c :: cs) then some 0 else (findCI pat cs).map (· + 1)

/-- Matcher for lazy block patterns such as `/<script[\s\S]*?<\/script>/gi`:
the opening literal, then the shortest stretch up to the closing literal. -/
def blockM (openPat closePat : Str) (s : Str) : Option Nat :=
  if startsCI openPat s then
    match findCI closePat (s.drop openPat.length) with
    | some j => some (openPat.length + j + closePat.length)
    | none => none
  else none

/-- Matcher for lazy open-tag patterns such as `/<iframe[\s\S]*?>/gi`:
the opening literal, then the shortest stretch up to the first `>`. -/
def openTagM (openPat : Str) (s : Str) : Option Nat :=
  if startsCI openPat s then
    match firstIdx '>' (s.drop openPat.length) with
    | some j => some (openPat.length + j + 1)
    | none => none
  else none

/-- The list `DANGEROUS_PATTERNS` (sanitizer.js lines 17-32), in declaration order. -/
def DANGEROUS_PATTERNS : List (Str → Option Nat) :=
  [ litCIm "javascript:".data
  , litCIm "vbscript:".data
  , litCIm "data:".data
  , onHandlerM true
  , blockM "<script".data "</script>".data
  , openTagM "<script".data
  , litCIm "</script>".data
  , openTagM "<iframe".data
  , openTagM "<object".data
  , openTagM "<embed".data
  , openTagM "<link".data
  , openTagM "<meta".data
  , blockM "<style".data "</style>".data
  , openTagM "<style".data ]

/-- JS `String.replace` of a global regex by the empty string: one left-to-right
scan deleting non-overlapping matches.  `fuel` bounds the recursion; every
step consumes at least one character, so `fuel = s.length` is always enough. -/
def removeAllF (m : Str → Option Nat) : Nat → Str → Str
  | 0, _ => []
  | _ + 1, [] => []
  | f + 1, c :: cs =>
    match m (c :: cs) with
    | some n => if n = 0 then c :: removeAllF m f cs else removeAllF m f ((c :: cs).drop n)
    | none => c :: removeAllF m f cs

/-- Delete every match of `m` in a single left-to-right scan. -/
def removeAll (m : Str → Option Nat) (s : Str) : Str := removeAllF m s.length s

/-- Letters, as required for the first character of a tag name. -/
def isAsciiLetter (c : Char) : Bool := ('a' ≤ c && c ≤ 'z') || ('A' ≤ c && c ≤ 'Z')

/-- Letters and digits, for the remaining characters of a tag name. -/
def isAsciiAlnum (c : Char) : Bool := isAsciiLetter c || ('0' ≤ c && c ≤ '9')

/-- The replacement computed by the callback of the second pass
(sanitizer.js lines 107-130) for a matched tag. -/
def tagReplacement (closing : Bool) (name attrs : Str) : Str :=
  let lt := lowerStr name
  if !(inList lt ALLOWED_TAGS) then []
  else if closing then '<' :: '/' :: (lt ++ ['>'])
  else if lt = ['b', 'r'] then "<br>".data
  else '<' :: (lt ++ sanitizeAttributes attrs) ++ ['>']

/-- Match of the tag regex `/<\/?([a-zA-Z][a-zA-Z0-9]*)\s*([^>]*)>/gi` at a
position whose `<` has just been consumed; `cs` is the rest of the string.
Returns the number of characters of `cs` covered and the replacement. -/
def tagMatchRes (cs : Str) : Option (Nat × Str) :=
  let closing := match cs with | '/' :: _ => true | _ => false
  let rest := if closing then cs.drop 1 else cs
  match rest with
  | [] => none
  | c0 :: r0 =>
    if isAsciiLetter c0 then
      let nameTail := takeCount isAsciiAlnum r0
      let name := c0 :: r0.take nameTail
      let afterName := r0.drop nameTail
      let ws := takeCount isSpaceChar afterName
      let afterWs := afterName.drop ws
      let attrs := afterWs.takeWhile (fun c => !(c = '>'))
      match afterWs.drop attrs.length with
      | '>' :: _ =>
        some ((if closing then 1 else 0) + name.length + ws + attrs.length + 1,
          tagReplacement closing name attrs)
      | _ => none
    else none

/-- Second pass of `sanitizeHTML`: rewrite every well-formed tag through the
whitelist (sanitizer.js lines 107-130). -/
def rewriteTagsF : Nat → Str → Str
  | 0, _ => []
  | _ + 1, [] => []
  | f + 1, c :: cs =>
    if c = '<' then
      match tagMatchRes cs with
      | some (n, rep) => rep ++ rewriteTagsF f (cs.drop n)
      | none => '<' :: rewriteTagsF f cs
    else c :: rewriteTagsF f cs

/-- Does `s` start with `</` ++ `tag` ++ `>`, matching the backreference of
the cleanup regex case-insensitively (its `i` flag)? -/
def closeTagCI (tag : Str) (s : Str) : Bool :=
  match s with
  | '<' :: '/' :: r =>
    if startsCI (lowerStr tag) r then
      match r.drop tag.length with
      | '>' :: _ => true
      | _ => false
    else false
  | _ => false

/-- Backtracking of the cleanup regex `<(\w+)[^>]*>\s*<\/\1>` over the length
of the captured `\w+` group, longest first. -/
def tryCloseLens (run : Str) (after2 : Str) : Nat → Option Nat
  | 0 => none
  | k + 1 => if closeTagCI (run.take (k + 1)) after2 then some (k + 1) else tryCloseLens run after2 k

/-- Match of the cleanup regex `/<(\w+)[^>]*>\s*<\/\1>/gi` at a position whose
`<` has just been consumed.  Returns the number of characters of `cs` covered
and whether the callback keeps the match (the tag lower-cases to `p`,
sanitizer.js lines 137-141). -/
def emptyPairRes (cs : Str) : Option (Nat × Bool) :=
  let run := cs.takeWhile isWordChar
  if run.isEmpty then none
  else
    let chunk := cs.takeWhile (fun c => !(c = '>'))
    match cs.drop chunk.length with
    | '>' :: rest =>
      let ws := takeCount isSpaceChar rest
      let after2 := rest.drop ws
      match tryCloseLens run after2 run.length with
      | some k => some (chunk.length + 1 + ws + 2 + k + 1, lowerStr (run.take k) = ['p'])
      | none => none
    | _ => none

/-- Fourth pass of `sanitizeHTML`: collapse empty tag pairs, keeping empty
paragraphs (sanitizer.js lines 137-141). -/
def cleanupF : Nat → Str → Str
  | 0, _ => []
  | _ + 1, [] => []
  | f + 1, c :: cs =>
    if c = '<' then
      match emptyPairRes cs with
      | some (n, keep) => (if keep then '<' :: cs.take n else []) ++ cleanupF f (cs.drop n)
      | none => '<' :: cleanupF f cs
    else c :: cleanupF f cs

/-- Source function `sanitizeHTML` (sanitizer.js lines 93-144).  Here `none` models a `null` /
`undefined` argument (non-string arguments take the same early return). -/
def sanitizeHTML (html : Option Str) : Str :=
  match html with
  | none => []
  | some h =>
    if h.isEmpty then []
    else
      let s1 := DANGEROUS_PATTERNS.foldl (fun s m => removeAll m s) h
      let s2 := rewriteTagsF s1.length s1
      let s3 := removeAll (litCIm "javascript:".data) s2
      let s4 := removeAll (onHandlerM false) s3
      let s5 := cleanupF s4.length s4
      trimStr s5

/-! ## Compliance service: `services/compliance.js` -/

/-- Remainder of the string after its first `>` character, if any. -/
def splitAtGt : Str → Option Str
  | [] => none
  | c :: cs => if c = '>' then some cs else splitAtGt cs

/-- Fueled scanner for the tag-stripping replace `/<[^>]*>/g` with `' '`:
a `<` that is followed (anywhere later) by a `>` swallows everything up to
that first `>` and becomes a single space; a `<` with no later `>` is
literal text. -/
def stripTF : Nat → Str → Str
  | 0, _ => []
  | _ + 1, [] => []
  | f + 1, c :: cs =>
    if c = '<' then
      match splitAtGt cs with
      | some r => ' ' :: stripTF f r
      | none => c :: stripTF f cs
    else c :: stripTF f cs

/-- Tag stripping, JS `text.replace` of the tag regex by a space (compliance.js lines 228 and 260). -/
def stripTags (s : Str) : Str := stripTF s.length s

/-- Word-boundary test for the character preceding the current position
(`none` at the start of the string). -/
def boundaryOk : Option Char → Bool
  | none => true
  | some c => !(isWordChar c)

/-- Does the lower-cased alternative `alt` (which starts and ends with word
characters) match at the head of `s` with a word boundary after it? -/
def altAt (alt s : Str) : Bool :=
  startsCI alt s &&
    (match s.drop alt.length with
     | [] => true
     | c :: _ => !(isWordChar c))

/-- Scan of a case-insensitive word-bounded alternation such as
`/\bguarantee[ds]?\b/i`: at every position, try each alternative with word
boundaries on both sides. -/
def boundedAux (alts : List Str) : Option Char → Str → Bool
  | _, [] => false
  | prev, c :: cs =>
    (boundaryOk prev && alts.any (fun a => altAt a (c :: cs))) || boundedAux alts (some c) cs

/-- Test of a word-bounded case-insensitive pattern given by its lower-cased
alternatives. -/
def boundedMatch (alts : List Str) (s : Str) : Bool := boundedAux alts none s

/-- A prohibited-keyword rule (compliance.js lines 181-192): a label and the
embedded test of its regex. -/
structure KeywordRule where
  keyword : Str
  test : Str → Bool

/-- The keyword of the last prohibited-keyword rule, with its apostrophe built via `squote`. -/
def donAposTMiss : Str := "don".data ++ squote :: "t miss".data

/-- The list `PROHIBITED_KEYWORDS` (compliance.js lines 181-192), in declaration
order; each regex `\b...\b/i` is embedded as its list of alternatives. -/
def PROHIBITED_KEYWORDS : List KeywordRule :=
  [ ⟨"guarantee".data, boundedMatch ["guarantee".data, "guaranteed".data, "guarantees".data]⟩
  , ⟨"never".data, boundedMatch ["never".data]⟩
  , ⟨"always".data, boundedMatch ["always".data]⟩
  , ⟨"required by law".data, boundedMatch ["required by law".data]⟩
  , ⟨"mandatory".data, boundedMatch ["mandatory".data]⟩
  , ⟨"best".data, boundedMatch ["best".data]⟩
  , ⟨"ultimate".data, boundedMatch ["ultimate".data]⟩
  , ⟨"act now".data, boundedMatch ["act now".data]⟩
  , ⟨"limited time".data, boundedMatch ["limited time".data]⟩
  , ⟨donAposTMiss, boundedMatch [donAposTMiss, "dont miss".data]⟩ ]

/-- A manipulative-language rule (compliance.js lines 195-202). -/
structure ManipRule where
  test : Str → Bool
  message : Str

/-- The list `MANIPULATIVE_PATTERNS` (compliance.js lines 195-202), in declaration
order.  `/!{2,}/` (no flags) is a case-sensitive substring test for `!!`;
the others are word-bounded case-insensitive phrases. -/
def MANIPULATIVE_PATTERNS : List ManipRule :=
  [ ⟨fun t => containsSub "!!".data t, "Multiple exclamation points may appear unprofessional".data⟩
  , ⟨boundedMatch ["will save you thousands".data], "Unverified savings claims".data⟩
  , ⟨boundedMatch ["bankrupt".data], "Fear-based language detected".data⟩
  , ⟨boundedMatch ["devastating".data], "Fear-based language detected".data⟩
  , ⟨boundedMatch ["you need this".data], "Pressure tactics detected".data⟩
  , ⟨boundedMatch ["everyone who says no regrets".data], "Pressure tactics detected".data⟩ ]

/-- The warning text pushed for a matched prohibited keyword
(compliance.js line 233). -/
def kwMsg (k : Str) : Str :=
  "Contains ".data ++ dquote :: (k ++ dquote :: " - this language may require legal review".data)

/-- The result record of `checkCompliance`. -/
structure ComplianceResult where
  hasIssues : Bool
  warnings : List Str
deriving DecidableEq

/-- One iteration of the prohibited-keyword loop of `checkCompliance`
(compliance.js lines 231-235). -/
def kwFoldStep (t : Str) (acc : List Str) (r : KeywordRule) : List Str :=
  if r.test t then acc ++ [kwMsg r.keyword] else acc

/-- One iteration of the manipulative-pattern loop of `checkCompliance`
(compliance.js lines 238-244); the `warnings.includes` membership test is
against the whole accumulated warning list. -/
def manipFoldStep (t : Str) (acc : List Str) (r : ManipRule) : List Str :=
  if r.test t && !(inList r.message acc) then acc ++ [r.message] else acc

/-- Source function `checkCompliance` (compliance.js lines 223-250).  Here
`none` models `null` / `undefined`, which the JS template literal turns into
the empty string. -/
def checkCompliance (shortDescription longDescription : Option Str) : ComplianceResult :=
  let combinedText := (shortDescription.getD []) ++ ' ' :: (longDescription.getD [])
  let plainText := stripTags combinedText
  let w1 := PROHIBITED_KEYWORDS.foldl (kwFoldStep plainText) []
  let w2 := MANIPULATIVE_PATTERNS.foldl (manipFoldStep plainText) w1
  ⟨!w2.isEmpty, w2⟩

/-- De-duplication keeping first occurrences, with an explicit list of
already-seen strings. -/
def dedupGo : List Str → List Str → List Str
  | _, [] => []
  | seen, x :: xs =>
    if inList x seen then dedupGo seen xs else x :: dedupGo (seen ++ [x]) xs

/-- The warning list as the spec describes it: one keyword warning per
matching prohibited-keyword rule in rule order, followed by the messages of
the matching manipulative-pattern rules in rule order with duplicate messages
omitted. -/
def specWarnings (shortDescription longDescription : Option Str) : List Str :=
  let plainText := stripTags ((shortDescription.getD []) ++ ' ' :: (longDescription.getD []))
  ((PROHIBITED_KEYWORDS.filter (fun r => r.test plainText)).map (fun r => kwMsg r.keyword)) ++
    dedupGo [] ((MANIPULATIVE_PATTERNS.filter (fun r => r.test plainText)).map (fun r => r.message))

/-- The constant `STANDARD_DISCLAIMER` (compliance.js line 205). -/
def STANDARD_DISCLAIMER : Str :=
  "This coverage has limitations and exclusions. Please review the full contract terms for complete details on covered components, service requirements, and exclusions.".data

/-- The wrapped disclaimer markup built by `ensureDisclaimer`
(compliance.js lines 272 and 282). -/
def disclaimerHTML : Str :=
  "<p><em style=\"font-size: smaller\">".data ++ STANDARD_DISCLAIMER ++ "</em></p>".data

/-- Scan for `p2` with no intervening line terminator, embedding the `.*`
(dot excludes LF, CR, U+2028, U+2029) between the two literals of patterns
such as `/please review.*contract/i`. -/
def seqScan (p2 : Str) : Str → Bool
  | [] => false
  | c :: cs =>
    startsWithStr p2 (c :: cs) ||
      (!(c = '\n' || c = '\r' || c = Char.ofNat 8232 || c = Char.ofNat 8233) && seqScan p2 cs)

/-- Test of `/p1.*p2/` on an already lower-cased string. -/
def seqMatch (p1 p2 : Str) : Str → Bool
  | [] => false
  | c :: cs =>
    (startsWithStr p1 (c :: cs) && seqScan p2 ((c :: cs).drop p1.length)) || seqMatch p1 p2 cs

/-- The list `DISCLAIMER_INDICATORS` (compliance.js lines 208-215), as tests on the
lower-cased tag-stripped text. -/
def DISCLAIMER_INDICATORS : List (Str → Bool) :=
  [ containsSub "limitations and exclusions".data
  , seqMatch "please review".data "contract".data
  , seqMatch "see contract for".data "details".data
  , containsSub "terms and conditions apply".data
  , seqMatch "coverage".data "limitations".data
  , containsSub "exclusions apply".data ]

/-- Source function `hasDisclaimer` (compliance.js lines 257-263). -/
def hasDisclaimer : Option Str → Bool
  | none => false
  | some t =>
    if t.isEmpty then false
    else DISCLAIMER_INDICATORS.any (fun f => f (lowerStr (stripTags t)))

/-- Source function `ensureDisclaimer` (compliance.js lines 270-285). -/
def ensureDisclaimer : Option Str → Str
  | none => disclaimerHTML
  | some s =>
    if s.isEmpty then disclaimerHTML
    else if hasDisclaimer (some s) then s
    else s ++ '\n' :: '\n' :: disclaimerHTML

/-! ## Generic lemmas about the scanners -/

set_option maxRecDepth 100000

theorem containsSub_cons {p t : Str} (h : containsSub p t = true) (c : Char) :
    containsSub p (c :: t) = true := by
  cases t with
  | nil => simp [containsSub] at h ⊢; exact Or.inr h
  | cons d ds => simp [containsSub] at h ⊢; tauto

theorem inList_iff {x : Str} {l : List Str} : inList x l = true ↔ x ∈ l := by
  induction l with
  | nil => simp [inList]
  | cons y ys ih => simp [inList, ih]; tauto

theorem inList_append (x : Str) (a b : List Str) :
    inList x (a ++ b) = (inList x a || inList x b) := by
  induction a with
  | nil => simp [inList]
  | cons y ys ih => simp [inList, ih, Bool.or_assoc]

theorem splitAtGt_append (a b : Str) :
    splitAtGt (a ++ b) =
      (match splitAtGt a with
       | some r => some (r ++ b)
       | none => splitAtGt b) := by
  induction a with
  | nil => simp [splitAtGt]
  | cons c cs ih =>
    by_cases h : c = '>'
    · simp [splitAtGt, h]
    · simpa [splitAtGt, h] using ih

theorem splitAtGt_length {s r : Str} (h : splitAtGt s = some r) : r.length < s.length := by
  induction s with
  | nil => simp [splitAtGt] at h
  | cons c cs ih =>
    by_cases hc : c = '>'
    · simp [splitAtGt, hc] at h
      subst h; simp
    · simp [splitAtGt, hc] at h
      exact Nat.lt_trans (ih h) (by simp)

theorem stripTF_fuel : ∀ f g s, s.length ≤ f → s.length ≤ g → stripTF f s = stripTF g s := by
  intro f
  induction f with
  | zero =>
    intro g s hf _
    have : s = [] := List.length_eq_zero.mp (Nat.le_zero.mp hf)
    subst this
    cases g <;> simp [stripTF]
  | succ f ih =>
    intro g s hf hg
    cases s with
    | nil => cases g <;> simp [stripTF]
    | cons c cs =>
      cases g with
      | zero => simp at hg
      | succ g =>
        by_cases hc : c = '<'
        · cases hr : splitAtGt cs with
          | some r =>
            have hlen : r.length < cs.length + 1 := by
              have := splitAtGt_length hr
              omega
            simp [stripTF, hc, hr]
            exact ih g r (by simp at hf; omega) (by simp at hg; omega)
          | none =>
            simp [stripTF, hc, hr]
            exact ih g cs (by simp at hf; omega) (by simp at hg; omega)
        · simp [stripTF, hc]
          exact ih g cs (by simp at hf; omega) (by simp at hg; omega)

theorem stripTF_succ_cons (f : Nat) (c : Char) (cs : Str) :
    stripTF (f + 1) (c :: cs) =
      if c = '<' then
        (match splitAtGt cs with
         | some r => ' ' :: stripTF f r
         | none => c :: stripTF f cs)
      else c :: stripTF f cs := rfl

theorem stripTags_nil : stripTags [] = [] := rfl

theorem stripTags_cons_other {c : Char} (h : ¬(c = '<')) (cs : Str) :
    stripTags (c :: cs) = c :: stripTags cs := by
  rw [stripTags, List.length_cons, stripTF_succ_cons, if_neg h]
  rfl

theorem stripTags_lt_some {cs r : Str} (h : splitAtGt cs = some r) :
    stripTags ('<' :: cs) = ' ' :: stripTags r := by
  rw [stripTags, List.length_cons, stripTF_succ_cons, if_pos rfl, h]
  exact congrArg (' ' :: ·) (stripTF_fuel cs.length r.length r
    (by have := splitAtGt_length h; omega) (Nat.le_refl _))

theorem stripTags_lt_none {cs : Str} (h : splitAtGt cs = none) :
    stripTags ('<' :: cs) = '<' :: stripTags cs := by
  rw [stripTags, List.length_cons, stripTF_succ_cons, if_pos rfl, h]
  rfl

/-- Strings free of `<` and `>`: appending them never changes how earlier
tag spans resolve. -/
def noTagChar (z : Str) : Bool := z.all (fun c => !(c = '<' || c = '>'))

theorem splitAtGt_none_of_clean {z : Str} (hz : noTagChar z = true) : splitAtGt z = none := by
  induction z with
  | nil => rfl
  | cons c cs ih =>
    simp [noTagChar, List.all_cons] at hz
    simp [splitAtGt, hz.1.2, ih (by simp [noTagChar]; exact fun x hx => hz.2 x hx)]

theorem stripTags_clean {z : Str} (hz : noTagChar z = true) : stripTags z = z := by
  induction z with
  | nil => rfl
  | cons c cs ih =>
    simp [noTagChar, List.all_cons] at hz
    rw [stripTags_cons_other hz.1.1]
    rw [ih (by simp [noTagChar]; exact fun x hx => hz.2 x hx)]

theorem stripTags_append_clean {z : Str} (hz : noTagChar z = true) :
    ∀ n a, a.length ≤ n → stripTags (a ++ z) = stripTags a ++ z := by
  intro n
  induction n with
  | zero =>
    intro a ha
    have : a = [] := List.length_eq_zero.mp (Nat.le_zero.mp ha)
    subst this
    simpa using stripTags_clean hz
  | succ n ih =>
    intro a ha
    cases a with
    | nil => simpa using stripTags_clean hz
    | cons c cs =>
      rw [List.cons_append]
      by_cases hc : c = '<'
      · subst hc
        cases hr : splitAtGt cs with
        | some r =>
          have h1 : splitAtGt (cs ++ z) = some (r ++ z) := by rw [splitAtGt_append, hr]
          rw [stripTags_lt_some h1, stripTags_lt_some hr]
          have hlen : r.length ≤ n := by
            have := splitAtGt_length hr
            simp at ha; omega
          rw [ih r hlen]
          simp
        | none =>
          have h1 : splitAtGt (cs ++ z) = splitAtGt z := by rw [splitAtGt_append, hr]
          rw [splitAtGt_none_of_clean hz] at h1
          rw [stripTags_lt_none h1, stripTags_lt_none hr]
          have hlen : cs.length ≤ n := by simp at ha; omega
          rw [ih cs hlen]
          simp
      · rw [stripTags_cons_other hc, stripTags_cons_other hc]
        have hlen : cs.length ≤ n := by simp at ha; omega
        rw [ih cs hlen]
        simp

/-! ## Style refinement -/

theorem declOf_eq_keep (part : Str) : declOf part = styleDeclKeep part := by
  rw [declOf, styleDeclKeep]
  by_cases he : (trimStr part).isEmpty
  · have : trimStr part = [] := by
      cases h : trimStr part with
      | nil => rfl
      | cons c cs => rw [h] at he; simp [List.isEmpty] at he
    simp [he, this, firstIdx]
  · simp only [he, if_false, Bool.false_eq_true]
    cases hi : firstIdx ':' (trimStr part) with
    | none => rfl
    | some i =>
      simp only []
      congr 1
      simp [Bool.and_eq_true, Bool.not_eq_true', inList_iff, Bool.not_eq_true,
        decide_eq_true_eq, eq_iff_iff]
      tauto

theorem foldl_styleStep_eq_filterMap :
    ∀ (l : List Str) (acc : List Str),
      l.foldl styleFoldStep acc = acc ++ l.filterMap declOf := by
  intro l
  induction l with
  | nil => intro acc; simp
  | cons x xs ih =>
    intro acc
    cases hf : declOf x with
    | some d => simp [List.foldl_cons, styleFoldStep, hf, ih, List.filterMap_cons]
    | none => simp [List.foldl_cons, styleFoldStep, hf, ih, List.filterMap_cons]

theorem sanitizeStyle_eq_spec (styleValue : Str) :
    sanitizeStyle styleValue = sanitizeStyleSpec styleValue := by
  rw [sanitizeStyle, sanitizeStyleSpec]
  have hfun : declOf = styleDeclKeep := funext declOf_eq_keep
  by_cases he : styleValue.isEmpty
  · have : styleValue = [] := by
      cases h : styleValue with
      | nil => rfl
      | cons c cs => rw [h] at he; simp [List.isEmpty] at he
    subst this
    simp [splitOnChar, styleDeclKeep, trimStr, firstIdx, joinWithSemi]
  · simp only [he, if_false, Bool.false_eq_true]
    rw [foldl_styleStep_eq_filterMap, hfun]
    simp

/-! ## The warning list of `checkCompliance` -/

theorem foldl_kw (t : Str) :
    ∀ (rules : List KeywordRule) (acc : List Str),
      rules.foldl (kwFoldStep t) acc =
        acc ++ (rules.filter (fun r => r.test t)).map (fun r => kwMsg r.keyword) := by
  intro rules
  induction rules with
  | nil => intro acc; simp
  | cons r rs ih =>
    intro acc
    by_cases hr : r.test t
    · simp [List.foldl_cons, kwFoldStep, hr, ih, List.filter_cons]
    · simp [List.foldl_cons, kwFoldStep, hr, ih, List.filter_cons]

theorem foldl_manip (t : Str) :
    ∀ (pats : List ManipRule) (acc : List Str),
      pats.foldl (manipFoldStep t) acc =
        acc ++ dedupGo acc ((pats.filter (fun r => r.test t)).map (fun r => r.message)) := by
  intro pats
  induction pats with
  | nil => intro acc; simp [dedupGo]
  | cons r rs ih =>
    intro acc
    by_cases hr : r.test t
    · by_cases hm : inList r.message acc = true
      · simp [List.foldl_cons, manipFoldStep, hr, hm, ih, List.filter_cons, dedupGo]
      · rw [List.foldl_cons]
        have hstep : manipFoldStep t acc r = acc ++ [r.message] := by
          simp [manipFoldStep, hr, hm]
        rw [hstep, ih]
        simp only [List.filter_cons, hr, if_pos, List.map_cons, dedupGo, hm,
          Bool.false_eq_true, if_false, decide_eq_true_eq]
        rw [List.append_assoc]
        simp
    · simp [List.foldl_cons, manipFoldStep, hr, ih, List.filter_cons]

theorem dedupGo_drop_base :
    ∀ (l : List Str) (base seen : List Str),
      (∀ x ∈ l, inList x base = false) →
      dedupGo (base ++ seen) l = dedupGo seen l := by
  intro l
  induction l with
  | nil => intro base seen _; simp [dedupGo]
  | cons x xs ih =>
    intro base seen hdis
    have hx : inList x base = false := hdis x (by simp)
    rw [dedupGo, dedupGo, inList_append, hx]
    simp only [Bool.false_or]
    by_cases hm : inList x seen = true
    · simp only [hm, if_pos]
      exact ih base seen (fun y hy => hdis y (by simp [hy]))
    · simp only [Bool.not_eq_true] at hm
      simp only [hm, Bool.false_eq_true, if_false]
      rw [show base ++ seen ++ [x] = base ++ (seen ++ [x]) from by simp]
      rw [ih base (seen ++ [x]) (fun y hy => hdis y (by simp [hy]))]

/-- No manipulative-pattern message collides with any possible
prohibited-keyword warning text. -/
theorem manip_msgs_not_kw :
    ((MANIPULATIVE_PATTERNS.map (fun r => r.message)).all
      (fun m => !(inList m (PROHIBITED_KEYWORDS.map (fun r => kwMsg r.keyword))))) = true := by
  decide

/-- The single characterization of `checkCompliance`: its warning list is the
keyword warnings of the matching prohibited-keyword rules in rule order,
followed by the first occurrences of the messages of the matching
manipulative-pattern rules in rule order, and `hasIssues` is the
non-emptiness of that list. -/
theorem checkCompliance_eq_spec (s l : Option Str) :
    checkCompliance s l = ⟨!(specWarnings s l).isEmpty, specWarnings s l⟩ := by
  rw [checkCompliance, specWarnings]
  set t := stripTags ((s.getD []) ++ ' ' :: (l.getD [])) with ht
  rw [foldl_kw t, foldl_manip t]
  set kwW := (PROHIBITED_KEYWORDS.filter (fun r => r.test t)).map (fun r => kwMsg r.keyword) with hkw
  set mMsgs := (MANIPULATIVE_PATTERNS.filter (fun r => r.test t)).map (fun r => r.message) with hmm
  have hdis : ∀ x ∈ mMsgs, inList x kwW = false := by
    intro x hx
    by_contra hfalse
    have hxin : x ∈ kwW := by
      cases hin : inList x kwW with
      | false => exact absurd hin hfalse
      | true => exact inList_iff.mp hin
    have hx1 : x ∈ PROHIBITED_KEYWORDS.map (fun r => kwMsg r.keyword) := by
      rw [hkw] at hxin
      rcases List.mem_map.mp hxin with ⟨r, hr, hrx⟩
      exact List.mem_map.mpr ⟨r, (List.mem_filter.mp hr).1, hrx⟩
    have hx2 : x ∈ MANIPULATIVE_PATTERNS.map (fun r => r.message) := by
      rw [hmm] at hx
      rcases List.mem_map.mp hx with ⟨r, hr, hrx⟩
      exact List.mem_map.mpr ⟨r, (List.mem_filter.mp hr).1, hrx⟩
    have h4 := List.all_eq_true.mp manip_msgs_not_kw x hx2
    rw [Bool.not_eq_true'] at h4
    rw [inList_iff.mpr hx1] at h4
    simp at h4
  have hbase : dedupGo kwW mMsgs = dedupGo [] mMsgs := by
    have := dedupGo_drop_base mMsgs kwW [] hdis
    simpa using this
  simp only [List.nil_append]
  rw [hbase]

/-! ## Word-bounded matching -/

theorem startsCI_self : ∀ (a r : Str), lowerStr a = a → startsCI a (a ++ r) = true := by
  intro a
  induction a with
  | nil => intro r _; rfl
  | cons c cs ih =>
    intro r hlow
    simp only [lowerStr, List.map_cons, List.cons.injEq] at hlow
    rw [List.cons_append, startsCI]
    simp only [Bool.and_eq_true]
    exact ⟨by rw [hlow.1]; simp, ih r hlow.2⟩

theorem altAt_self {a : Str} (c' : Char) (r : Str)
    (hlow : lowerStr a = a) (hw : isWordChar c' = false) :
    altAt a (a ++ c' :: r) = true := by
  rw [altAt]
  simp only [Bool.and_eq_true]
  constructor
  · exact startsCI_self a (c' :: r) hlow
  · rw [List.drop_left]
    simp [hw]

theorem boundedAux_head {alts : List Str} {a : Str} {prev : Option Char} {c : Char} {cs : Str}
    (ha : a ∈ alts) (hAt : altAt a (c :: cs) = true) (hb : boundaryOk prev = true) :
    boundedAux alts prev (c :: cs) = true := by
  rw [boundedAux]
  have hany : alts.any (fun x => altAt x (c :: cs)) = true :=
    List.any_eq_true.mpr ⟨a, ha, hAt⟩
  simp [hb, hany]

theorem boundedAux_tail {alts : List Str} {prev : Option Char} {c : Char} {cs : Str}
    (h : boundedAux alts (some c) cs = true) :
    boundedAux alts prev (c :: cs) = true := by
  rw [boundedAux]
  simp [h]

theorem boundedAux_suffix {alts : List Str} {a : Str} (rest : Str)
    (ha : a ∈ alts) (hlow : lowerStr a = a) :
    ∀ (w : Str) (prev : Option Char),
      boundedAux alts prev (w ++ ' ' :: (a ++ ' ' :: rest)) = true := by
  intro w
  induction w with
  | nil =>
    intro prev
    rw [List.nil_append]
    apply boundedAux_tail
    cases a with
    | nil =>
      apply boundedAux_head ha _ (by decide)
      rw [altAt]
      simp [startsCI, isWordChar]
    | cons c cs =>
      rw [List.cons_append]
      exact boundedAux_head ha
        (by rw [← List.cons_append]; exact altAt_self ' ' rest hlow (by decide)) (by decide)
  | cons c w' ih =>
    intro prev
    rw [List.cons_append]
    exact boundedAux_tail (ih (some c))

/-- Appending a prohibited keyword (as its own whole word) to the short text
makes the corresponding rule match, so `hasIssues` is true. -/
theorem kwRule_flip (t : Str) (r : KeywordRule) (alts : List Str)
    (hr : r ∈ PROHIBITED_KEYWORDS) (htest : r.test = boundedMatch alts)
    (hmem : r.keyword ∈ alts) (hlow : lowerStr r.keyword = r.keyword)
    (hclean : noTagChar (' ' :: (r.keyword ++ [' '])) = true) :
    (checkCompliance (some (t ++ ' ' :: r.keyword)) (some [])).hasIssues = true := by
  rw [checkCompliance_eq_spec]
  have hplain :
      stripTags (((some (t ++ ' ' :: r.keyword)).getD []) ++ ' ' :: ((some ([] : Str)).getD [])) =
        stripTags t ++ ' ' :: (r.keyword ++ [' ']) := by
    have h1 : ((some (t ++ ' ' :: r.keyword)).getD []) ++ ' ' :: ((some ([] : Str)).getD []) =
        t ++ (' ' :: (r.keyword ++ [' '])) := by
      simp
    rw [h1]
    exact stripTags_append_clean hclean t.length t (Nat.le_refl _)
  have htst : r.test (stripTags (((some (t ++ ' ' :: r.keyword)).getD []) ++
      ' ' :: ((some ([] : Str)).getD []))) = true := by
    rw [hplain, htest, boundedMatch]
    have := boundedAux_suffix ([] : Str) hmem hlow (stripTags t) none
    simpa using this
  have hmemF : r ∈ PROHIBITED_KEYWORDS.filter
      (fun x => x.test (stripTags (((some (t ++ ' ' :: r.keyword)).getD []) ++
        ' ' :: ((some ([] : Str)).getD [])))) :=
    List.mem_filter.mpr ⟨hr, by rw [htst]⟩
  have hne : specWarnings (some (t ++ ' ' :: r.keyword)) (some []) ≠ [] := by
    rw [specWarnings]
    intro hcontra
    rcases List.append_eq_nil.mp hcontra with ⟨h1, _⟩
    have : kwMsg r.keyword ∈ (PROHIBITED_KEYWORDS.filter
        (fun x => x.test (stripTags (((some (t ++ ' ' :: r.keyword)).getD []) ++
          ' ' :: ((some ([] : Str)).getD []))))).map (fun x => kwMsg x.keyword) :=
      List.mem_map.mpr ⟨r, hmemF, rfl⟩
    rw [h1] at this
    simp at this
  cases hE : (specWarnings (some (t ++ ' ' :: r.keyword)) (some [])).isEmpty with
  | false => simp [hE]
  | true =>
    exact absurd (List.isEmpty_iff.mp hE) hne

/-! ## Disclaimer presence after `ensureDisclaimer` -/

/-- The distinguishing phrase of the standard disclaimer (the first
`DISCLAIMER_INDICATORS` pattern). -/
def phraseLAE : Str := "limitations and exclusions".data

/-- The suffix `ensureDisclaimer` appends: a blank-line gap and the wrapped
standard disclaimer. -/
def gapDisc : Str := '\n' :: '\n' :: disclaimerHTML

/-- What remains of `gapDisc` after its first `>`. -/
def zTailDisc : Str :=
  "<em style=\"font-size: smaller\">".data ++ STANDARD_DISCLAIMER ++ "</em></p>".data

theorem splitAtGt_gapDisc : splitAtGt gapDisc = some zTailDisc := by decide

theorem phrase_in_zTail : containsSub phraseLAE (lowerStr (stripTags zTailDisc)) = true := by
  decide

theorem phrase_in_gapDisc : containsSub phraseLAE (lowerStr (stripTags gapDisc)) = true := by
  decide

theorem lowerStr_cons (c : Char) (t : Str) : lowerStr (c :: t) = asciiLower c :: lowerStr t := rfl

/-- Whatever precedes it, the appended disclaimer block keeps its
distinguishing phrase visible to the tag-stripping scan. -/
theorem phrase_survives : ∀ (n : Nat) (s : Str), s.length ≤ n →
    containsSub phraseLAE (lowerStr (stripTags (s ++ gapDisc))) = true := by
  intro n
  induction n with
  | zero =>
    intro s hs
    have : s = [] := List.length_eq_zero.mp (Nat.le_zero.mp hs)
    subst this
    simpa using phrase_in_gapDisc
  | succ n ih =>
    intro s hs
    cases s with
    | nil => simpa using phrase_in_gapDisc
    | cons c cs =>
      rw [List.cons_append]
      by_cases hc : c = '<'
      · subst hc
        cases hcs : splitAtGt cs with
        | some r =>
          have h1 : splitAtGt (cs ++ gapDisc) = some (r ++ gapDisc) := by
            rw [splitAtGt_append, hcs]
          rw [stripTags_lt_some h1, lowerStr_cons]
          apply containsSub_cons
          apply ih
          have := splitAtGt_length hcs
          simp at hs
          omega
        | none =>
          have h1 : splitAtGt (cs ++ gapDisc) = some zTailDisc := by
            rw [splitAtGt_append, hcs, splitAtGt_gapDisc]
          rw [stripTags_lt_some h1, lowerStr_cons]
          exact containsSub_cons phrase_in_zTail _
      · rw [stripTags_cons_other hc, lowerStr_cons]
        apply containsSub_cons
        apply ih
        simp at hs
        omega

theorem append_gapDisc_ne_empty (s : Str) : (s ++ gapDisc).isEmpty = false := by
  cases s with
  | nil => decide
  | cons c cs => simp [List.isEmpty]

/-- The output of `ensureDisclaimer` always passes `hasDisclaimer`. -/
theorem ensure_hasDisc_aux : ∀ x, hasDisclaimer (some (ensureDisclaimer x)) = true := by
  intro x
  cases x with
  | none =>
    show hasDisclaimer (some disclaimerHTML) = true
    decide
  | some s =>
    rw [ensureDisclaimer]
    by_cases he : s.isEmpty
    · simp only [he, if_pos]
      decide
    · simp only [he, Bool.false_eq_true, if_false]
      by_cases hd : hasDisclaimer (some s) = true
      · simp only [hd, if_pos]
      · simp only [hd, if_false]
        show hasDisclaimer (some (s ++ gapDisc)) = true
        rw [hasDisclaimer]
        rw [append_gapDisc_ne_empty]
        simp only [Bool.false_eq_true, if_false]
        have h1 := phrase_survives s.length s (Nat.le_refl _)
        apply List.any_eq_true.mpr
        refine ⟨containsSub phraseLAE, ?_, h1⟩
        rw [DISCLAIMER_INDICATORS]
        exact List.mem_cons_self _ _

/-- The output of `ensureDisclaimer` is never the empty string. -/
theorem ensure_ne_empty : ∀ x, (ensureDisclaimer x).isEmpty = false := by
  intro x
  cases x with
  | none => decide
  | some s =>
    rw [ensureDisclaimer]
    by_cases he : s.isEmpty
    · simp only [he, if_pos]
      decide
    · simp only [he, Bool.false_eq_true, if_false]
      by_cases hd : hasDisclaimer (some s) = true
      · simp only [hd, if_pos]
        simpa using he
      · simp only [hd, if_false]
        exact append_gapDisc_ne_empty s

/-! ## Claim theorems -/

/-- C1: dangerous-content elimination fails on the code.  The input
`javascoonq=nx=ript:` contains the event-handler form `onq=`, yet
`sanitizeHTML` maps it to exactly the string `javascript:`: pass 1 deletes
`onq=` and splices `javasco` against `nx=ript:`, and the third pass has its own
event-handler removal then deletes `onx=` and splices the remaining halves
into `javascript:`, after which nothing removes it.  So an input containing
one of the dangerous substrings is sanitized to an output that still contains
one. -/
theorem C1_dangerous_content_resurfaces :
    containsSub "onq=".data "javascoonq=nx=ript:".data = true ∧
    sanitizeHTML (some "javascoonq=nx=ript:".data) = "javascript:".data := by
  constructor
  · decide
  · decide

/-- C2: whitelist closure fails on the code.  The input
`<<em></em>script>x<<em></em>/script>` contains no dangerous pattern and only
whitelisted `em` tags, but the empty-tag cleanup pass deletes the
`<em></em>` pairs and splices the surrounding characters into a literal
`<script>x</script>`, a tag outside `ALLOWED_TAGS`, in the final output. -/
theorem C2_whitelist_closure_escape :
    sanitizeHTML (some "<<em></em>script>x<<em></em>/script>".data) =
      "<script>x</script>".data ∧
    containsSub "<script>".data
      (sanitizeHTML (some "<<em></em>script>x<<em></em>/script>".data)) = true ∧
    inList "script".data ALLOWED_TAGS = false := by
  refine ⟨by decide, by decide, by decide⟩

/-- C3: idempotence fails on the code.  For the input `javascr<em></em>ipt:`,
one application of `sanitizeHTML` yields `javascript:` (the cleanup pass
splices the halves after removing the empty `<em></em>`), and a second
application removes that string entirely, so
`sanitizeHTML (sanitizeHTML x) ≠ sanitizeHTML x`. -/
theorem C3_sanitizeHTML_not_idempotent :
    sanitizeHTML (some "javascr<em></em>ipt:".data) = "javascript:".data ∧
    sanitizeHTML (some (sanitizeHTML (some "javascr<em></em>ipt:".data))) = [] ∧
    sanitizeHTML (some (sanitizeHTML (some "javascr<em></em>ipt:".data))) ≠
      sanitizeHTML (some "javascr<em></em>ipt:".data) := by
  refine ⟨by decide, by decide, by decide⟩

/-- C4 counterexample: the claimed case-folded value check is not what the
code does.  The style value `URL(x)` case-folds to contain `url(`, yet the
pair survives `sanitizeStyle` verbatim, because the
`String.includes` checks of the source are case-sensitive. -/
theorem C4_case_variant_survives :
    sanitizeStyle "font-size: URL(x)".data = "font-size: URL(x)".data ∧
    containsSub "url(".data (lowerStr (sanitizeStyle "font-size: URL(x)".data)) = true := by
  constructor
  · decide
  · decide

/-- C4 amended: a `property: value` pair survives `sanitizeStyle` exactly when
the trimmed lower-cased property is in `ALLOWED_STYLE_PROPERTIES` and the
value contains none of the substrings `expression`, `javascript`, `url(`
under case-SENSITIVE comparison (so case variants such as `URL(` survive);
surviving pairs are emitted as `property: value` and rejoined with `; `, and
failing pairs are dropped entirely, never partially rewritten. -/
theorem C4_sanitizeStyle_characterization :
    ∀ styleValue, sanitizeStyle styleValue = sanitizeStyleSpec styleValue :=
  sanitizeStyle_eq_spec

/-- C5: the embedded core functions are total Lean functions over strings
plus `none` (modelling `null`/`undefined`, which the JS guards turn into the
empty-string path), and the null cases take the specified values:
`sanitizeHTML` yields the empty string, `hasDisclaimer` is false,
`ensureDisclaimer` yields the wrapped standard disclaimer, and
`checkCompliance` treats both inputs as empty text and reports no issues. -/
theorem C5_total_null_handling :
    sanitizeHTML none = [] ∧
    sanitizeHTML (some []) = [] ∧
    hasDisclaimer none = false ∧
    hasDisclaimer (some []) = false ∧
    ensureDisclaimer none = disclaimerHTML ∧
    ensureDisclaimer (some []) = disclaimerHTML ∧
    checkCompliance none none = ⟨false, []⟩ ∧
    checkCompliance none none = checkCompliance (some []) (some []) := by
  refine ⟨rfl, rfl, rfl, rfl, rfl, by decide, by decide, by decide⟩

/-- C6: for every pair of inputs, the warning list of `checkCompliance` is
exactly the keyword warnings (`Contains "{label}" - this language may require
legal review`) of the matching prohibited-keyword rules in rule declaration
order, followed by the messages of the matching manipulative-pattern rules in
rule order with duplicate messages omitted, and `hasIssues` is true iff that
list is non-empty. -/
theorem C6_checkCompliance_warning_structure :
    ∀ (s l : Option Str),
      checkCompliance s l = ⟨!(specWarnings s l).isEmpty, specWarnings s l⟩ :=
  checkCompliance_eq_spec

/-- C7: compliance monotonicity.  For every text on which `checkCompliance`
reports no issues, appending any prohibited keyword as its own whole word
(separated by a space) makes `checkCompliance` report `hasIssues = true`. -/
theorem C7_compliance_monotonicity :
    ∀ (t : Str) (r : KeywordRule), r ∈ PROHIBITED_KEYWORDS →
      (checkCompliance (some t) (some [])).hasIssues = false →
      (checkCompliance (some (t ++ ' ' :: r.keyword)) (some [])).hasIssues = true := by
  intro t r hr _hclean
  fin_cases hr <;>
    exact kwRule_flip t _ _
      (by rw [PROHIBITED_KEYWORDS]
          repeat first
            | exact List.mem_cons_self _ _
            | apply List.mem_cons_of_mem)
      rfl (by decide) (by decide) (by decide)

/-- Witness for C7 at the clean text `hello` and the `guarantee` rule. -/
theorem C7_witness :
    (checkCompliance (some "hello".data) (some [])).hasIssues = false ∧
    (checkCompliance (some ("hello".data ++ ' ' :: "guarantee".data)) (some [])).hasIssues
      = true := by
  constructor
  · decide
  · exact C7_compliance_monotonicity "hello".data
      ⟨"guarantee".data, boundedMatch ["guarantee".data, "guaranteed".data, "guarantees".data]⟩
      (by rw [PROHIBITED_KEYWORDS]; exact List.mem_cons_self _ _)
      (by decide)

/-- C8: `ensureDisclaimer` returns the standard disclaimer wrapped in an
italic paragraph with a smaller-font style attribute when the input is null or
empty; returns the input unchanged when `hasDisclaimer` holds; and otherwise
returns the original input verbatim, a blank-line gap, and the same wrapped
disclaimer markup. -/
theorem C8_ensureDisclaimer_cases (s : Str) :
    ensureDisclaimer none =
      "<p><em style=\"font-size: smaller\">".data ++ STANDARD_DISCLAIMER ++ "</em></p>".data ∧
    ensureDisclaimer (some []) = disclaimerHTML ∧
    (s.isEmpty = false → hasDisclaimer (some s) = true → ensureDisclaimer (some s) = s) ∧
    (s.isEmpty = false → hasDisclaimer (some s) = false →
      ensureDisclaimer (some s) = s ++ '\n' :: '\n' :: disclaimerHTML) := by
  refine ⟨rfl, by decide, ?_, ?_⟩
  · intro he hd
    rw [ensureDisclaimer]
    simp [he, hd]
  · intro he hd
    rw [ensureDisclaimer]
    simp [he, hd]

/-- Witness for C8: a non-empty input without a disclaimer gets the gap and
the wrapped disclaimer appended after the original content. -/
theorem C8_witness :
    ensureDisclaimer (some "Coverage info.".data) =
      "Coverage info.".data ++ '\n' :: '\n' :: disclaimerHTML :=
  (C8_ensureDisclaimer_cases "Coverage info.".data).2.2.2 (by decide) (by decide)

/-- C9 counterexample: for the input `Terms and conditions apply.`,
`hasDisclaimer` already holds through the `terms and conditions apply`
indicator, so `ensureDisclaimer (ensureDisclaimer x)` returns the input
unchanged, which contains zero (not exactly one) occurrences of the standard
distinguishing phrase `limitations and exclusions` of the standard disclaimer (and zero
occurrences of the full disclaimer text). -/
theorem C9_counterexample :
    ensureDisclaimer (some (ensureDisclaimer (some "Terms and conditions apply.".data))) =
      "Terms and conditions apply.".data ∧
    countOcc phraseLAE
      (ensureDisclaimer (some (ensureDisclaimer (some "Terms and conditions apply.".data)))) = 0 ∧
    countOcc STANDARD_DISCLAIMER
      (ensureDisclaimer (some (ensureDisclaimer (some "Terms and conditions apply.".data)))) = 0 := by
  refine ⟨by decide, by decide, by decide⟩

/-- C9 amended: `ensureDisclaimer` is idempotent — a second application never
changes the result (in particular it never introduces a second copy of the
disclaimer), though the result need not contain the distinguishing phrase at
all when the input already carried a different disclaimer indicator. -/
theorem C9_ensureDisclaimer_idempotent :
    ∀ x, ensureDisclaimer (some (ensureDisclaimer x)) = ensureDisclaimer x := by
  intro x
  have h1 := ensure_ne_empty x
  have h2 := ensure_hasDisc_aux x
  rw [ensureDisclaimer]
  simp [h1, h2]

/-- C10: for every input (including null), the output of `ensureDisclaimer`
satisfies `hasDisclaimer`, because the standard disclaimer text matches the
`limitations and exclusions` indicator even after tag stripping. -/
theorem C10_ensureDisclaimer_hasDisclaimer :
    ∀ x, hasDisclaimer (some (ensureDisclaimer x)) = true :=
  ensure_hasDisc_aux
